import Mathlib

/-!
Verification of the FormPersistence.js serialize/deserialize engine.

This file gives a shallow embedding of the library's two codec versions:

* the options-based module in `form-persistence.js` (functions `serialize`,
  `deserialize`, `save`, `load`, `clearStorage`, `persist`, `getFormElements`,
  `applyValues`, `applySpecialHandlers`, `getStorageKey`), and
* the filter-aware module (functions `serialize` with `include`/`exclude`
  lists, `isNameFiltered`, `pushToArray`, `deserialize`), embedded here with
  an `F` suffix.

Form controls are modelled by the `Elem` inductive; a live document is a
`Doc`: the form's nested controls plus the externally associated controls
(each carrying its `form` attribute).  JavaScript records (plain objects of
name-to-array-of-values) are association lists in insertion order; storage
is an association list from key to record (the `JSON.stringify`/`JSON.parse`
pair is modelled as the identity on records, which is faithful for records
of strings and booleans).  JavaScript value coercions that the code relies
on (`undefined` reads, string coercion on `.value` assignment, truthiness on
`.checked` assignment, strict equality) are modelled explicitly.
-/

/-- A JavaScript value stored in a serialized record: a string or a boolean
(booleans arise only from checkbox state). -/
inductive JSVal where
  | str (s : String)
  | bool (b : Bool)
deriving DecidableEq, Repr

/-- An option of a select control: its value attribute and selected state. -/
structure SOption where
  value : String
  selected : Bool
deriving DecidableEq, Repr

/-- A recognized form control.  `text` stands for every text-like input
(text, hidden, number, ...): the code treats all non-radio, non-checkbox,
non-password, non-file inputs alike.  A checkbox and a radio carry their
value attribute and checked state; selects carry their option lists. -/
inductive Elem where
  | text (nm value : String)
  | radio (nm value : String) (checked : Bool)
  | checkbox (nm value : String) (checked : Bool)
  | textarea (nm value : String)
  | selectOne (nm : String) (options : List SOption)
  | selectMany (nm : String) (options : List SOption)
  | fileInput (nm value : String)
  | password (nm value : String)
deriving DecidableEq, Repr

/-- The name attribute of a control (empty string when absent, as in the
DOM's `element.name`). -/
def Elem.name : Elem → String
  | .text n _ => n
  | .radio n _ _ => n
  | .checkbox n _ _ => n
  | .textarea n _ => n
  | .selectOne n _ => n
  | .selectMany n _ => n
  | .fileInput n _ => n
  | .password n _ => n

/-- The check `tag === 'INPUT' && (type === 'password' || type === 'file')`
that both serialize versions perform before anything else. -/
def Elem.isFilePw : Elem → Bool
  | .fileInput _ _ => true
  | .password _ _ => true
  | _ => false

/-- A form element: its id attribute (empty when absent) and its nested
controls in document order (`form.querySelectorAll` / `form.elements`). -/
structure Form where
  id : String
  elements : List Elem
deriving DecidableEq, Repr

/-- A control living outside the form tag, together with its `form`
attribute declaring external association. -/
structure ExtCtl where
  elem : Elem
  formAttr : String
deriving DecidableEq, Repr

/-- The document as the library sees it: one form plus the recognized-kind
controls found elsewhere in the document, in document order. -/
structure Doc where
  form : Form
  external : List ExtCtl
deriving DecidableEq, Repr

/-! ## Records: plain objects mapping names to arrays of values -/

/-- A serialized record: association list from control name to value list,
in key insertion order (JavaScript object semantics for string keys). -/
abbrev Record := List (String × List JSVal)

/-- The `name in data` membership test on a record. -/
def hasKey (r : Record) (k : String) : Bool :=
  r.any (fun p => p.1 == k)

/-- Property read `data[name]`: `none` models `undefined`. -/
def rlookup (r : Record) (k : String) : Option (List JSVal) :=
  match r.find? (fun p => p.1 == k) with
  | some p => some p.2
  | none => none

/-- The statement `if (!(element.name in data)) data[element.name] = []`
of `serialize`: create an empty list for the key unless present. -/
def rinit (r : Record) (k : String) : Record :=
  if hasKey r k then r else r ++ [(k, [])]

/-- The statement `data[key].push(value)`, creating the array if needed
(this is exactly `pushToArray` of the filter-aware module; the main module
always runs `rinit` first, so the creation branch is unreachable there). -/
def rpush : Record → String → JSVal → Record
  | [], k, v => [(k, [v])]
  | p :: rest, k, v =>
      if p.1 == k then (p.1, p.2 ++ [v]) :: rest
      else p :: rpush rest k v

/-! ## JavaScript coercions used by `applyValues` -/

/-- String coercion applied by a DOM `.value` assignment: `undefined`
becomes the string `undefined`, booleans their names. -/
def jsToString : Option JSVal → String
  | none => "undefined"
  | some (.str s) => s
  | some (.bool true) => "true"
  | some (.bool false) => "false"

/-- Truthiness coercion applied by a DOM `.checked` assignment. -/
def truthy : Option JSVal → Bool
  | none => false
  | some (.bool b) => b
  | some (.str s) => !(s == "")

/-- Strict equality `element.value === values[0]` between a DOM string and
a possibly absent record value. -/
def strictEqStr (v : String) : Option JSVal → Bool
  | some (.str s) => v == s
  | _ => false

/-- Strict membership `values.includes(x)` for a DOM string `x`. -/
def includesStr (vs : List JSVal) (v : String) : Bool :=
  vs.contains (.str v)

/-! ## Select controls -/

/-- Reading `.value` of a single select: the value of the first selected
option, or the empty string when no option is selected. -/
def selValue (opts : List SOption) : String :=
  match opts.find? (fun o => o.selected) with
  | some o => o.value
  | none => ""

/-- Deselect every option. -/
def clearSel (opts : List SOption) : List SOption :=
  opts.map (fun o => ⟨o.value, false⟩)

/-- Writing `.value` on a single select: the first option whose value
matches becomes the selection; no match leaves no option selected. -/
def setSelValue : List SOption → String → List SOption
  | [], _ => []
  | o :: rest, x =>
      if o.value == x then ⟨o.value, true⟩ :: clearSel rest
      else ⟨o.value, false⟩ :: setSelValue rest x

/-! ## applyValues (identical in both module versions) -/

/-- The function `applyValues(element, values, index)`: writes the recorded
values into one control.  Radio and checkbox read `values[0]`; positional
kinds read `values[index]`; a multiple select selects exactly the options
whose values occur in the list.  The DOM exception on assigning a non-empty
`.value` to a file input is outside the model (no claim exercises it). -/
def applyValues (e : Elem) (values : List JSVal) (index : Nat) : Elem :=
  match e with
  | .radio n v _ => .radio n v (strictEqStr v values.head?)
  | .checkbox n v _ => .checkbox n v (truthy values.head?)
  | .text n _ => .text n (jsToString values[index]?)
  | .textarea n _ => .textarea n (jsToString values[index]?)
  | .selectOne n opts => .selectOne n (setSelValue opts (jsToString values[index]?))
  | .selectMany n opts =>
      .selectMany n (opts.map (fun o => ⟨o.value, includesStr values o.value⟩))
  | .fileInput n _ => .fileInput n (jsToString values[index]?)
  | .password n _ => .password n (jsToString values[index]?)

/-! ## Element Resolver: getFormElements -/

/-- The optional `[name="..."]` attribute selector. -/
def nameMatch : Option String → Elem → Bool
  | none, _ => true
  | some n, e => e.name == n

/-- The function `getFormElements(form, skipExternal, attribute, value)`,
specialized to its two call shapes (no attribute filter, or a name filter):
nested controls in document order, then — unless external search is skipped
or the form has no id (an empty `form.id` is falsy) — the document-wide
externally associated controls, appended after the nested set. -/
def getFormElements (doc : Doc) (skipExternal : Bool) (nf : Option String) : List Elem :=
  let elements := doc.form.elements.filter (nameMatch nf)
  if !skipExternal && !(doc.form.id == "") then
    elements ++
      (doc.external.filter
        (fun x => nameMatch nf x.elem && x.formAttr == doc.form.id)).map (fun x => x.elem)
  else elements

/-! ## serialize (main module, no filters) -/

/-- One loop iteration of `serialize`: skip passwords and files, otherwise
create the key's list when absent, then push this control's contribution
per kind rule. -/
def serializeStep (data : Record) (e : Elem) : Record :=
  match e with
  | .password _ _ => data
  | .fileInput _ _ => data
  | .radio n v c =>
      let d := rinit data n
      if c then rpush d n (.str v) else d
  | .checkbox n _ c => rpush (rinit data n) n (.bool c)
  | .text n v => rpush (rinit data n) n (.str v)
  | .textarea n v => rpush (rinit data n) n (.str v)
  | .selectOne n opts => rpush (rinit data n) n (.str (selValue opts))
  | .selectMany n opts =>
      opts.foldl
        (fun d o => if o.selected then rpush d n (.str o.value) else d)
        (rinit data n)

/-- The body of `serialize` over an already resolved element list. -/
def serializeElems (es : List Elem) : Record :=
  es.foldl serializeStep []

/-- The function `serialize(form, options)` of the main module. -/
def serializeDoc (doc : Doc) (skipExternal : Bool) : Record :=
  serializeElems (getFormElements doc skipExternal none)

/-! ## deserialize (main module) -/

/-- The per-name write loop `inputs.forEach((input, i) => applyValues(...))`
applied to an element list: controls whose name matches receive the values
at their index within the matching sublist, other controls are untouched. -/
def applyName : List Elem → String → List JSVal → Nat → List Elem
  | [], _, _, _ => []
  | e :: rest, n, vs, i =>
      if e.name == n then applyValues e vs i :: applyName rest n vs (i + 1)
      else e :: applyName rest n vs i

/-- The same write loop continued over the externally associated controls
(which must also match the form id). -/
def applyNameExt : List ExtCtl → String → String → List JSVal → Nat → List ExtCtl
  | [], _, _, _, _ => []
  | x :: rest, fid, n, vs, i =>
      if x.elem.name == n && x.formAttr == fid then
        ⟨applyValues x.elem vs i, x.formAttr⟩ :: applyNameExt rest fid n vs (i + 1)
      else x :: applyNameExt rest fid n vs i

/-- Number of nested controls matching a name: the index offset at which
the resolved external controls continue. -/
def countName (es : List Elem) (n : String) : Nat :=
  (es.filter (fun e => e.name == n)).length

/-- Writing one record entry into the document: the resolver returns the
nested matches followed (when applicable) by the external matches, and
`applyValues` runs positionally over that combined list. -/
def applyNameDoc (doc : Doc) (skipExternal : Bool) (n : String) (vs : List JSVal) : Doc :=
  if !skipExternal && !(doc.form.id == "") then
    { form := { id := doc.form.id, elements := applyName doc.form.elements n vs 0 },
      external := applyNameExt doc.external doc.form.id n vs (countName doc.form.elements n) }
  else
    { form := { id := doc.form.id, elements := applyName doc.form.elements n vs 0 },
      external := doc.external }

/-- The function `deserialize(form, data, options)` with no value functions
configured (the `valueFunctions: null` default): fill every name's controls
normally, in record order. -/
def deserializeDoc (doc : Doc) (data : Record) (skipExternal : Bool) : Doc :=
  data.foldl (fun d p => applyNameDoc d skipExternal p.1 p.2) doc

/-- The function `applySpecialHandlers(data, form, valueFunctions)` of the
main module: iterate the handler table keys in order; for a key present in
the data, invoke the handler once per value, in list order, and mark the
name handled.  Returns the mutated document, the handled names, and the
trace of handler invocations in order. -/
def handlerPhase (data : Record) (fnNames : List String)
    (h : String → JSVal → Doc → Doc) (doc : Doc) :
    Doc × List String × List (String × JSVal) :=
  match fnNames with
  | [] => (doc, [], [])
  | fnName :: rest =>
      match rlookup data fnName with
      | some vs =>
          let doc1 := vs.foldl (fun d v => h fnName v d) doc
          let r := handlerPhase data rest h doc1
          (r.1, fnName :: r.2.1, vs.map (fun v => (fnName, v)) ++ r.2.2)
      | none => handlerPhase data rest h doc

/-- The function `deserialize(form, data, options)` with value functions:
the handler phase runs first, then every name not specially handled is
filled normally.  Also returns the handler invocation trace. -/
def deserializeDocH (doc : Doc) (data : Record) (fnNames : List String)
    (h : String → JSVal → Doc → Doc) (skipExternal : Bool) :
    Doc × List (String × JSVal) :=
  let r := handlerPhase data fnNames h doc
  (data.foldl
    (fun d p => if r.2.1.contains p.1 then d else applyNameDoc d skipExternal p.1 p.2)
    r.1,
   r.2.2)

/-! ## Storage operations (main module) -/

/-- The browser key/value storage: string keys to stored records (the JSON
encode/decode pair is modelled as the identity on records). -/
abbrev Storage := List (String × Record)

/-- The call `storage.setItem(key, value)`: replace or append. -/
def setItem : Storage → String → Record → Storage
  | [], k, v => [(k, v)]
  | p :: rest, k, v =>
      if p.1 == k then (k, v) :: rest else p :: setItem rest k v

/-- The call `storage.getItem(key)`: `none` models `null`. -/
def getItem (st : Storage) (k : String) : Option Record :=
  match st.find? (fun p => p.1 == k) with
  | some p => some p.2
  | none => none

/-- The call `storage.removeItem(key)`. -/
def removeItem (st : Storage) (k : String) : Storage :=
  st.filter (fun p => !(p.1 == k))

/-- The `uuid` option: `none` models the `null` default, and `some ""` is
falsy exactly like `null` in the `!uuid` and `uuid ? uuid : form.id`
tests. -/
def uuidFalsy : Option String → Bool
  | none => true
  | some s => s == ""

/-- The function `getStorageKey(form, uuid)`: throws when neither a truthy
uuid nor a form id is available, else concatenates the fixed prefix with
the uuid (when truthy) or the form id. -/
def getStorageKey (formId : String) (uuid : Option String) : Except String String :=
  if uuidFalsy uuid && formId == "" then
    .error "form persistence requires a form id or uuid"
  else
    .ok ("form#" ++ (match uuid with
      | some s => if s == "" then formId else s
      | none => formId))

/-- The function `save(form, options)`: serialize, then write the record at
the form's storage key.  The thrown identity error is the `.error` branch;
the storage component of the result is the storage after the call, so an
error leaves it unchanged (the key is computed before `setItem` runs). -/
def save (doc : Doc) (uuid : Option String) (skipExternal : Bool)
    (_useSession : Bool) (st : Storage) : Except String String × Storage :=
  let data := serializeDoc doc skipExternal
  match getStorageKey doc.form.id uuid with
  | .error e => (.error e, st)
  | .ok key => (.ok key, setItem st key data)

/-- The function `load(form, options)`: compute the key (throwing first if
identity is missing), read the item, and deserialize when present; a
missing item is a no-op. -/
def load (doc : Doc) (uuid : Option String) (skipExternal : Bool)
    (_useSession : Bool) (fnNames : List String) (h : String → JSVal → Doc → Doc)
    (st : Storage) : Except String Doc × Storage :=
  match getStorageKey doc.form.id uuid with
  | .error e => (.error e, st)
  | .ok key =>
      match getItem st key with
      | none => (.ok doc, st)
      | some data => (.ok (deserializeDocH doc data fnNames h skipExternal).1, st)

/-- The function `clearStorage(form, options)`: remove the record at the
form's storage key. -/
def clearStorage (doc : Doc) (uuid : Option String) (_useSession : Bool)
    (st : Storage) : Except String Unit × Storage :=
  match getStorageKey doc.form.id uuid with
  | .error e => (.error e, st)
  | .ok key => (.ok (), removeItem st key)

/-- The function `persist(form, options)` as far as storage is concerned:
it calls `load(form, config)` synchronously; the unload/submit event wiring
it then installs performs no storage access at registration time and is
outside the model. -/
def persist (doc : Doc) (uuid : Option String) (skipExternal : Bool)
    (_useSession : Bool) (fnNames : List String) (h : String → JSVal → Doc → Doc)
    (st : Storage) : Except String Doc × Storage :=
  load doc uuid skipExternal _useSession fnNames h st

/-! ## The filter-aware module (include/exclude name lists) -/

/-- The function `isNameFiltered(name, include, exclude)`: an empty name is
always filtered; then any name on the exclude list, and, when the include
list is non-empty, any name not on it. -/
def isNameFiltered (nm : String) (inc exc : List String) : Bool :=
  if nm == "" then true
  else if exc.contains nm then true
  else if decide (0 < inc.length) && !inc.contains nm then true
  else false

/-- One loop iteration of the filter-aware `serialize`: skip passwords and
files, skip filtered names, then push contributions with `pushToArray`
(which creates the list only on first push). -/
def serializeFStep (inc exc : List String) (data : Record) (e : Elem) : Record :=
  if e.isFilePw then data
  else if isNameFiltered e.name inc exc then data
  else match e with
  | .radio n v c => if c then rpush data n (.str v) else data
  | .checkbox n _ c => rpush data n (.bool c)
  | .text n v => rpush data n (.str v)
  | .textarea n v => rpush data n (.str v)
  | .selectOne n opts => rpush data n (.str (selValue opts))
  | .selectMany n opts =>
      opts.foldl
        (fun d o => if o.selected then rpush d n (.str o.value) else d)
        data
  | .fileInput _ _ => data
  | .password _ _ => data

/-- The filter-aware `serialize(form, options)` over `form.elements`. -/
def serializeF (es : List Elem) (inc exc : List String) : Record :=
  es.foldl (serializeFStep inc exc) []

/-- The filter-aware `applySpecialHandlers(data, form, options)`: like the
main module's, but a filtered name is skipped (not invoked, not marked
handled). -/
def handlerPhaseF (data : Record) (inc exc : List String) (fnNames : List String)
    (h : String → JSVal → List Elem → List Elem) (es : List Elem) :
    List Elem × List String × List (String × JSVal) :=
  match fnNames with
  | [] => (es, [], [])
  | fnName :: rest =>
      match rlookup data fnName with
      | some vs =>
          if isNameFiltered fnName inc exc then
            handlerPhaseF data inc exc rest h es
          else
            let es1 := vs.foldl (fun l v => h fnName v l) es
            let r := handlerPhaseF data inc exc rest h es1
            (r.1, fnName :: r.2.1, vs.map (fun v => (fnName, v)) ++ r.2.2)
      | none => handlerPhaseF data inc exc rest h es

/-- The filter-aware `deserialize(form, data, options)`: run handlers first
(respecting filters), then fill every non-filtered, non-handled name from
the controls of `form.elements` bearing that name.  Also returns the
handler invocation trace. -/
def deserializeF (es : List Elem) (data : Record) (inc exc : List String)
    (fnNames : List String) (h : String → JSVal → List Elem → List Elem) :
    List Elem × List (String × JSVal) :=
  let r := handlerPhaseF data inc exc fnNames h es
  (data.foldl
    (fun l p =>
      if isNameFiltered p.1 inc exc then l
      else if r.2.1.contains p.1 then l
      else applyName l p.1 p.2 0)
    r.1,
   r.2.2)

/-! ## Derived forms and helper lemmas -/

/-- The values a single control appends to its name's list during
serialization, per kind rule. -/
def contrib : Elem → List JSVal
  | .radio _ v c => if c then [.str v] else []
  | .checkbox _ _ c => [.bool c]
  | .text _ v => [.str v]
  | .textarea _ v => [.str v]
  | .selectOne _ opts => [.str (selValue opts)]
  | .selectMany _ opts => (opts.filter (fun o => o.selected)).map (fun o => .str o.value)
  | .fileInput _ _ => []
  | .password _ _ => []

/-- Distinctness of record keys, an invariant of both serializers. -/
def rkeysNodup (r : Record) : Prop :=
  (r.map Prod.fst).Nodup

/-- Restoration property of a value list over a group of controls: writing
the values back starting at offset `i` leaves every control unchanged. -/
def RestoresFrom (vs : List JSVal) (i : Nat) (g : List Elem) : Prop :=
  ∀ j e, g[j]? = some e → applyValues e vs (i + j) = e

/-- The one value a positional control (text-like input, textarea, single
select) contributes during serialization. -/
def posContrib : Elem → JSVal
  | .text _ v => .str v
  | .textarea _ v => .str v
  | .selectOne _ opts => .str (selValue opts)
  | _ => .str ""

/-- A control whose contribution and restoration are positional, with the
single-select additionally having exactly one selected option and pairwise
distinct option values. -/
def posOk : Elem → Bool
  | .text _ _ => true
  | .textarea _ _ => true
  | .selectOne _ opts =>
      decide ((opts.filter (fun o => o.selected)).length = 1) &&
        decide ((opts.map (fun o => o.value)).Nodup)
  | _ => false

/-- Test for the radio constructor. -/
def isRadioE : Elem → Bool
  | .radio _ _ _ => true
  | _ => false

/-- The checked state of a radio (false for other kinds). -/
def radioChecked : Elem → Bool
  | .radio _ _ c => c
  | _ => false

/-- The value attribute of a radio (empty for other kinds). -/
def radioVal : Elem → String
  | .radio _ v _ => v
  | _ => ""

/-- Conditions under which a group of same-named controls round-trips: all
positional, a single checkbox, a radio group with distinct values and at
most one checked control, or a single multiple select with distinct option
values. -/
def goodGroup (g : List Elem) : Bool :=
  g.all posOk ||
  (match g with
   | [.checkbox _ _ _] => true
   | _ => false) ||
  (g.all isRadioE && decide ((g.map radioVal).Nodup) &&
    decide ((g.filter radioChecked).length ≤ 1)) ||
  (match g with
   | [.selectMany _ opts] => decide ((opts.map (fun o => o.value)).Nodup)
   | _ => false)

/-- Conditions on a resolved element list under which serialize/deserialize
round-trips: no file or password control, no empty name, and every name
group well-behaved. -/
def goodResolved (es : List Elem) : Bool :=
  es.all (fun e => !e.isFilePw && !(e.name == "")) &&
  (es.map Elem.name).all (fun n => goodGroup (es.filter (fun e => e.name == n)))

/-- The round-trip conditions applied to the controls that serialize and
deserialize actually resolve for the document. -/
def goodDoc (doc : Doc) (skipExternal : Bool) : Bool :=
  goodResolved (getFormElements doc skipExternal none)

theorem hasKey_rpush (r : Record) (k : String) (v : JSVal) (n : String) :
    hasKey (rpush r k v) n = (k == n || hasKey r n) := by
  induction r with
  | nil => simp [rpush, hasKey]
  | cons p rest ih =>
      cases h : (p.1 == k) with
      | true =>
          have hk : p.1 = k := by simpa using h
          subst hk
          simp only [rpush, h, if_true, hasKey, List.any_cons]
          cases hn : (p.1 == n) <;> simp [hn]
      | false =>
          simp only [rpush, h, Bool.false_eq_true, if_false, hasKey, List.any_cons]
          simp only [hasKey] at ih
          rw [ih]
          cases hpn : (p.1 == n) <;> cases hkn : (k == n) <;> simp

theorem hasKey_rinit (r : Record) (k n : String) :
    hasKey (rinit r k) n = (k == n || hasKey r n) := by
  unfold rinit
  cases h : hasKey r k with
  | true =>
      simp only [if_true]
      cases hkn : (k == n) with
      | true =>
          have : k = n := by simpa using hkn
          subst this
          simp [h]
      | false => simp
  | false =>
      simp only [Bool.false_eq_true, if_false, hasKey, List.any_append, List.any_cons,
        List.any_nil, Bool.or_false]
      simp only [hasKey] at *
      cases hpn : (r.any fun p => p.1 == n) <;> cases hkn : (k == n) <;> simp [hkn]

theorem rlookup_isSome_eq_hasKey (r : Record) (n : String) :
    (rlookup r n).isSome = hasKey r n := by
  induction r with
  | nil => simp [rlookup, hasKey]
  | cons p rest ih =>
      cases h : (p.1 == n) with
      | true => simp [rlookup, hasKey, List.find?, h]
      | false =>
          simp only [rlookup, List.find?, h] at ih ⊢
          simp only [hasKey, List.any_cons, h, Bool.false_or]
          exact ih

theorem rlookup_rinit (r : Record) (k n : String) :
    rlookup (rinit r k) n =
      if k == n then some ((rlookup r n).getD []) else rlookup r n := by
  unfold rinit
  cases h : hasKey r k with
  | true =>
      simp only [if_true]
      cases hkn : (k == n) with
      | true =>
          have : k = n := by simpa using hkn
          subst this
          have := rlookup_isSome_eq_hasKey r k
          rw [h] at this
          cases hr : rlookup r k with
          | none => rw [hr] at this; simp at this
          | some vs => simp
      | false => simp
  | false =>
      simp only [Bool.false_eq_true, if_false]
      cases hkn : (k == n) with
      | true =>
          have hk : k = n := by simpa using hkn
          subst hk
          have := rlookup_isSome_eq_hasKey r k
          rw [h] at this
          cases hr : rlookup r k with
          | some vs => rw [hr] at this; simp at this
          | none =>
              simp only [if_true, hr, Option.getD_none]
              unfold rlookup at hr ⊢
              rw [List.find?_append]
              cases hf : r.find? (fun p => p.1 == k) with
              | some p => rw [hf] at hr; simp at hr
              | none => simp [List.find?]
      | false =>
          simp only [Bool.false_eq_true, if_false]
          unfold rlookup
          rw [List.find?_append]
          cases hf : r.find? (fun p => p.1 == n) with
          | some p => simp
          | none => simp [List.find?, hkn]

theorem rlookup_rpush (r : Record) (k : String) (v : JSVal) (n : String) :
    rlookup (rpush r k v) n =
      if k == n then some ((rlookup r n).getD [] ++ [v]) else rlookup r n := by
  induction r with
  | nil =>
      cases hkn : (k == n) with
      | true => simp [rpush, rlookup, List.find?, hkn]
      | false => simp [rpush, rlookup, List.find?, hkn]
  | cons p rest ih =>
      cases h : (p.1 == k) with
      | true =>
          have hk : p.1 = k := by simpa using h
          simp only [rpush, h, if_true]
          cases hkn : (k == n) with
          | true =>
              have : k = n := by simpa using hkn
              subst this
              simp [rlookup, List.find?, hk, h]
          | false =>
              have hpn : (p.1 == n) = false := by rw [hk]; exact hkn
              simp [rlookup, List.find?, hpn, hkn]
      | false =>
          simp only [rpush, h, Bool.false_eq_true, if_false]
          cases hpn : (p.1 == n) with
          | true =>
              have hp : p.1 = n := by simpa using hpn
              have hkn : (k == n) = false := by
                cases hkn : (k == n) with
                | true =>
                    have : k = n := by simpa using hkn
                    subst this
                    rw [hp] at h; simp at h
                | false => rfl
              simp [rlookup, List.find?, hpn, hkn]
          | false =>
              simp only [rlookup, List.find?, hpn] at ih ⊢
              exact ih

theorem rlookup_pushFold (vs : List JSVal) (r : Record) (k n : String) (u : List JSVal)
    (hs : rlookup r k = some u) :
    rlookup (vs.foldl (fun d x => rpush d k x) r) n =
      if k == n then some (u ++ vs) else rlookup r n := by
  induction vs generalizing r u with
  | nil =>
      cases hkn : (k == n) with
      | true =>
          have : k = n := by simpa using hkn
          subst this
          simp [hs]
      | false => simp [hkn]
  | cons v rest ih =>
      simp only [List.foldl_cons]
      have hstep : rlookup (rpush r k v) k = some (u ++ [v]) := by
        rw [rlookup_rpush]; simp [hs]
      rw [ih (rpush r k v) (u ++ [v]) hstep, rlookup_rpush]
      cases hkn : (k == n) with
      | true => simp
      | false => simp [hkn]

theorem hasKey_pushFold (vs : List JSVal) (r : Record) (k n : String)
    (hne : (k == n) = false) :
    hasKey (vs.foldl (fun d x => rpush d k x) r) n = hasKey r n := by
  induction vs generalizing r with
  | nil => simp
  | cons v rest ih =>
      simp only [List.foldl_cons]
      rw [ih, hasKey_rpush, hne]
      simp

theorem selectMany_fold (opts : List SOption) (n : String) (d0 : Record) :
    opts.foldl (fun d o => if o.selected then rpush d n (.str o.value) else d) d0 =
      ((opts.filter (fun o => o.selected)).map (fun o => JSVal.str o.value)).foldl
        (fun d x => rpush d n x) d0 := by
  induction opts generalizing d0 with
  | nil => simp
  | cons o rest ih =>
      cases h : o.selected with
      | true => simp [h, ih]
      | false => simp [h, ih]

theorem serializeStep_eq (data : Record) (e : Elem) :
    serializeStep data e =
      if e.isFilePw then data
      else (contrib e).foldl (fun d x => rpush d e.name x) (rinit data e.name) := by
  cases e with
  | text n v => simp [serializeStep, contrib, Elem.isFilePw, Elem.name]
  | radio n v c =>
      cases c <;> simp [serializeStep, contrib, Elem.isFilePw, Elem.name]
  | checkbox n v c => simp [serializeStep, contrib, Elem.isFilePw, Elem.name]
  | textarea n v => simp [serializeStep, contrib, Elem.isFilePw, Elem.name]
  | selectOne n opts => simp [serializeStep, contrib, Elem.isFilePw, Elem.name]
  | selectMany n opts =>
      simp [serializeStep, contrib, Elem.isFilePw, Elem.name, selectMany_fold]
  | fileInput n v => simp [serializeStep, contrib, Elem.isFilePw]
  | password n v => simp [serializeStep, contrib, Elem.isFilePw]

theorem rlookup_serialize_fold (es : List Elem) (r : Record) (n : String) :
    rlookup (es.foldl serializeStep r) n =
      match rlookup r n with
      | some vs =>
          some (vs ++ ((es.filter (fun e => !e.isFilePw && e.name == n)).map contrib).flatten)
      | none =>
          if es.any (fun e => !e.isFilePw && e.name == n) then
            some ((es.filter (fun e => !e.isFilePw && e.name == n)).map contrib).flatten
          else none := by
  induction es generalizing r with
  | nil => cases hr : rlookup r n <;> simp [hr]
  | cons e rest ih =>
      simp only [List.foldl_cons]
      rw [ih (serializeStep r e)]
      cases hfp : e.isFilePw with
      | true =>
          have hstep : serializeStep r e = r := by rw [serializeStep_eq, hfp]; simp
          rw [hstep]
          simp [List.filter_cons, List.any_cons, hfp]
      | false =>
          cases hen : (e.name == n) with
          | false =>
              have hstep : rlookup (serializeStep r e) n = rlookup r n := by
                rw [serializeStep_eq, hfp]
                simp only [Bool.false_eq_true, if_false]
                have hinit : rlookup (rinit r e.name) e.name =
                    some ((rlookup r e.name).getD []) := by
                  rw [rlookup_rinit]; simp
                rw [rlookup_pushFold _ _ _ _ _ hinit, hen]
                simp only [Bool.false_eq_true, if_false]
                rw [rlookup_rinit, hen]
                simp
              rw [hstep]
              simp [List.filter_cons, List.any_cons, hfp, hen]
          | true =>
              have hstep : rlookup (serializeStep r e) n =
                  some ((rlookup r n).getD [] ++ contrib e) := by
                have hn : e.name = n := by simpa using hen
                rw [serializeStep_eq, hfp]
                simp only [Bool.false_eq_true, if_false]
                have hinit : rlookup (rinit r e.name) e.name =
                    some ((rlookup r e.name).getD []) := by
                  rw [rlookup_rinit]; simp
                rw [rlookup_pushFold _ _ _ _ _ hinit, hn]
                simp
              rw [hstep]
              simp only [Option.getD]
              cases hr : rlookup r n with
              | some vs =>
                  simp [List.filter_cons, hfp, hen, List.append_assoc]
              | none =>
                  simp [List.filter_cons, List.any_cons, hfp, hen]

theorem rlookup_serializeElems (es : List Elem) (n : String) :
    rlookup (serializeElems es) n =
      if es.any (fun e => !e.isFilePw && e.name == n) then
        some ((es.filter (fun e => !e.isFilePw && e.name == n)).map contrib).flatten
      else none := by
  unfold serializeElems
  rw [rlookup_serialize_fold]
  simp [rlookup]

theorem hasKey_serializeElems (es : List Elem) (n : String) :
    hasKey (serializeElems es) n = es.any (fun e => !e.isFilePw && e.name == n) := by
  rw [← rlookup_isSome_eq_hasKey, rlookup_serializeElems]
  cases h : es.any (fun e => !e.isFilePw && e.name == n) <;> simp


theorem hasKey_eq_false_iff (r : Record) (k : String) :
    hasKey r k = false ↔ k ∉ r.map Prod.fst := by
  rw [← Bool.not_eq_true, hasKey, List.any_eq_true]
  constructor
  · intro h hk
    rcases List.mem_map.mp hk with ⟨p, hp, he⟩
    exact h ⟨p, hp, by simpa using he⟩
  · intro h hex
    rcases hex with ⟨p, hp, he⟩
    exact h (List.mem_map.mpr ⟨p, hp, by simpa using he⟩)

theorem rkeysNodup_rinit (r : Record) (k : String) (h : rkeysNodup r) :
    rkeysNodup (rinit r k) := by
  unfold rinit
  cases hk : hasKey r k with
  | true => simpa using h
  | false =>
      simp only [Bool.false_eq_true, if_false]
      unfold rkeysNodup at *
      rw [List.map_append]
      simp only [List.map_cons, List.map_nil]
      rw [List.nodup_append]
      refine ⟨h, List.nodup_singleton k, ?_⟩
      intro a ha hb
      simp only [List.mem_singleton] at hb
      rw [hb] at ha
      exact (hasKey_eq_false_iff r k).mp hk ha

theorem keys_rpush (r : Record) (k : String) (v : JSVal) :
    (rpush r k v).map Prod.fst =
      if hasKey r k then r.map Prod.fst else r.map Prod.fst ++ [k] := by
  induction r with
  | nil => simp [rpush, hasKey]
  | cons p rest ih =>
      cases h : (p.1 == k) with
      | true => simp [rpush, h, hasKey, List.any_cons]
      | false =>
          simp only [rpush, h, Bool.false_eq_true, if_false, List.map_cons, hasKey,
            List.any_cons, Bool.false_or]
          simp only [hasKey] at ih
          rw [ih]
          by_cases hr : (rest.any fun p => p.1 == k) = true <;> simp [hr]

theorem rkeysNodup_rpush (r : Record) (k : String) (v : JSVal) (h : rkeysNodup r) :
    rkeysNodup (rpush r k v) := by
  unfold rkeysNodup at *
  rw [keys_rpush]
  cases hk : hasKey r k with
  | true => simpa using h
  | false =>
      simp only [Bool.false_eq_true, if_false]
      rw [List.nodup_append]
      refine ⟨h, List.nodup_singleton k, ?_⟩
      intro a ha hb
      simp only [List.mem_singleton] at hb
      rw [hb] at ha
      exact (hasKey_eq_false_iff r k).mp hk ha

theorem rkeysNodup_pushFold (vs : List JSVal) (r : Record) (k : String)
    (h : rkeysNodup r) : rkeysNodup (vs.foldl (fun d x => rpush d k x) r) := by
  induction vs generalizing r with
  | nil => simpa using h
  | cons v rest ih => exact ih _ (rkeysNodup_rpush _ _ _ h)

theorem rkeysNodup_serializeStep (r : Record) (e : Elem) (h : rkeysNodup r) :
    rkeysNodup (serializeStep r e) := by
  rw [serializeStep_eq]
  cases hfp : e.isFilePw with
  | true => simpa using h
  | false =>
      simp only [Bool.false_eq_true, if_false]
      exact rkeysNodup_pushFold _ _ _ (rkeysNodup_rinit _ _ h)

theorem rkeysNodup_serializeElems (es : List Elem) : rkeysNodup (serializeElems es) := by
  unfold serializeElems
  have h : ∀ r, rkeysNodup r → rkeysNodup (es.foldl serializeStep r) := by
    induction es with
    | nil => intro r h; simpa using h
    | cons e rest ih =>
        intro r h
        exact ih _ (rkeysNodup_serializeStep r e h)
  exact h [] (by simp [rkeysNodup])

theorem rlookup_of_mem (r : Record) (p : String × List JSVal)
    (hmem : p ∈ r) (hnd : rkeysNodup r) : rlookup r p.1 = some p.2 := by
  induction r with
  | nil => simp at hmem
  | cons q rest ih =>
      unfold rkeysNodup at hnd
      simp only [List.map_cons, List.nodup_cons] at hnd
      rcases List.mem_cons.mp hmem with h | h
      · rw [h]
        simp [rlookup, List.find?]
      · have hne : (q.1 == p.1) = false := by
          have hm : p.1 ∈ rest.map Prod.fst := List.mem_map_of_mem Prod.fst h
          have hqp : q.1 ≠ p.1 := fun he => hnd.1 (he ▸ hm)
          simpa using hqp
        simp only [rlookup, List.find?, hne]
        exact ih h hnd.2


theorem restoresFrom_append (vs : List JSVal) (i : Nat) (a b : List Elem) :
    RestoresFrom vs i (a ++ b) ↔
      RestoresFrom vs i a ∧ RestoresFrom vs (i + a.length) b := by
  constructor
  · intro h
    constructor
    · intro j e hj
      obtain ⟨hlt, -⟩ := List.getElem?_eq_some.mp hj
      exact h j e (by rw [List.getElem?_append_left hlt]; exact hj)
    · intro j e hj
      have hsome := h (a.length + j) e (by
        rw [List.getElem?_append_right (Nat.le_add_right _ _)]
        simpa using hj)
      rw [← Nat.add_assoc] at hsome
      exact hsome
  · intro h j e hj
    by_cases hlt : j < a.length
    · exact h.1 j e (by rw [List.getElem?_append_left hlt] at hj; exact hj)
    · push_neg at hlt
      have hb' := h.2 (j - a.length) e
        (by rw [List.getElem?_append_right hlt] at hj; exact hj)
      rw [Nat.add_assoc, Nat.add_sub_cancel' hlt] at hb'
      exact hb'

theorem applyName_eq_self (es : List Elem) (n : String) (vs : List JSVal) (i : Nat)
    (h : RestoresFrom vs i (es.filter (fun e => e.name == n))) :
    applyName es n vs i = es := by
  induction es generalizing i with
  | nil => rfl
  | cons e rest ih =>
      cases he : (e.name == n) with
      | true =>
          simp only [applyName, he, if_true]
          have hfil : (e :: rest).filter (fun e => e.name == n) =
              e :: rest.filter (fun e => e.name == n) := by
            simp [List.filter_cons, he]
          rw [hfil] at h
          have h0 : applyValues e vs i = e := by
            have := h 0 e (by simp)
            simpa using this
          have hrest : RestoresFrom vs (i + 1) (rest.filter (fun e => e.name == n)) := by
            intro j x hj
            have := h (j + 1) x (by simpa using hj)
            rw [show i + (j + 1) = i + 1 + j by omega] at this
            exact this
          rw [h0, ih (i + 1) hrest]
      | false =>
          simp only [applyName, he, Bool.false_eq_true, if_false]
          have hfil : (e :: rest).filter (fun e => e.name == n) =
              rest.filter (fun e => e.name == n) := by
            simp [List.filter_cons, he]
          rw [hfil] at h
          rw [ih i h]

theorem applyNameExt_eq_self (xs : List ExtCtl) (fid n : String) (vs : List JSVal) (i : Nat)
    (h : RestoresFrom vs i
      ((xs.filter (fun x => x.elem.name == n && x.formAttr == fid)).map (fun x => x.elem))) :
    applyNameExt xs fid n vs i = xs := by
  induction xs generalizing i with
  | nil => rfl
  | cons x rest ih =>
      cases hx : (x.elem.name == n && x.formAttr == fid) with
      | true =>
          simp only [applyNameExt, hx, if_true]
          have hfil : ((x :: rest).filter (fun x => x.elem.name == n && x.formAttr == fid)).map
              (fun x => x.elem) =
              x.elem :: (rest.filter (fun x => x.elem.name == n && x.formAttr == fid)).map
                (fun x => x.elem) := by
            simp [List.filter_cons, hx]
          rw [hfil] at h
          have h0 : applyValues x.elem vs i = x.elem := by
            have := h 0 x.elem (by simp)
            simpa using this
          have hrest : RestoresFrom vs (i + 1)
              ((rest.filter (fun x => x.elem.name == n && x.formAttr == fid)).map
                (fun x => x.elem)) := by
            intro j y hj
            have := h (j + 1) y (by simpa using hj)
            rw [show i + (j + 1) = i + 1 + j by omega] at this
            exact this
          rw [h0, ih (i + 1) hrest]
      | false =>
          simp only [applyNameExt, hx, Bool.false_eq_true, if_false]
          have hfil : ((x :: rest).filter (fun x => x.elem.name == n && x.formAttr == fid)).map
              (fun x => x.elem) =
              (rest.filter (fun x => x.elem.name == n && x.formAttr == fid)).map
                (fun x => x.elem) := by
            simp [List.filter_cons, hx]
          rw [hfil] at h
          rw [ih i h]

theorem applyName_getElem_ne (es : List Elem) (n : String) (vs : List JSVal) (i j : Nat)
    (e : Elem) (hj : es[j]? = some e) (hne : (e.name == n) = false) :
    (applyName es n vs i)[j]? = some e := by
  induction es generalizing i j with
  | nil => simp at hj
  | cons x rest ih =>
      cases j with
      | zero =>
          rw [List.getElem?_cons_zero] at hj
          injection hj with hj
          subst hj
          simp [applyName, hne]
      | succ j =>
          rw [List.getElem?_cons_succ] at hj
          cases hx : (x.name == n) with
          | true =>
              simp only [applyName, hx, if_true, List.getElem?_cons_succ]
              exact ih _ _ hj
          | false =>
              simp only [applyName, hx, Bool.false_eq_true, if_false,
                List.getElem?_cons_succ]
              exact ih _ _ hj

theorem applyNameExt_getElem_ne (xs : List ExtCtl) (fid n : String) (vs : List JSVal)
    (i j : Nat) (x : ExtCtl) (hj : xs[j]? = some x)
    (hne : (x.elem.name == n) = false) :
    (applyNameExt xs fid n vs i)[j]? = some x := by
  induction xs generalizing i j with
  | nil => simp at hj
  | cons y rest ih =>
      cases j with
      | zero =>
          rw [List.getElem?_cons_zero] at hj
          injection hj with hj
          subst hj
          simp [applyNameExt, hne]
      | succ j =>
          rw [List.getElem?_cons_succ] at hj
          cases hy : (y.elem.name == n && y.formAttr == fid) with
          | true =>
              simp only [applyNameExt, hy, if_true, List.getElem?_cons_succ]
              exact ih _ _ hj
          | false =>
              simp only [applyNameExt, hy, Bool.false_eq_true, if_false,
                List.getElem?_cons_succ]
              exact ih _ _ hj


theorem map_eq_self {α : Type} (l : List α) (f : α → α) (h : ∀ x ∈ l, f x = x) :
    l.map f = l := by
  induction l with
  | nil => rfl
  | cons x rest ih =>
      simp only [List.map_cons, h x (by simp)]
      rw [ih (fun y hy => h y (by simp [hy]))]

theorem clearSel_of_unsel (opts : List SOption) (h : ∀ o ∈ opts, o.selected = false) :
    clearSel opts = opts := by
  unfold clearSel
  apply map_eq_self
  intro o ho
  have := h o ho
  cases o with
  | mk v s => simp at this; rw [this]

theorem setSelValue_selValue (opts : List SOption)
    (h1 : (opts.filter (fun o => o.selected)).length = 1)
    (h2 : (opts.map (fun o => o.value)).Nodup) :
    setSelValue opts (selValue opts) = opts := by
  induction opts with
  | nil => simp at h1
  | cons o rest ih =>
      simp only [List.map_cons, List.nodup_cons] at h2
      cases ho : o.selected with
      | true =>
          have hsel : selValue (o :: rest) = o.value := by
            simp [selValue, List.find?, ho]
          have hrest : ∀ x ∈ rest, x.selected = false := by
            rw [List.filter_cons] at h1
            simp only [ho, if_true] at h1
            simp only [List.length_cons, Nat.add_left_cancel_iff,
              Nat.succ_inj] at h1
            intro x hx
            by_contra hxs
            have hxs' : x.selected = true := by
              cases hxv : x.selected with
              | true => rfl
              | false => exact absurd hxv hxs
            have hm : x ∈ rest.filter (fun o => o.selected) :=
              List.mem_filter.mpr ⟨hx, hxs'⟩
            rw [List.length_eq_zero.mp h1] at hm
            simp at hm
          rw [hsel]
          unfold setSelValue
          simp only [beq_self_eq_true, if_true]
          rw [clearSel_of_unsel rest hrest]
          have : (⟨o.value, true⟩ : SOption) = o := by
            cases o with
            | mk v s => simp at ho; rw [ho]
          rw [this]
      | false =>
          have hsel : selValue (o :: rest) = selValue rest := by
            simp [selValue, List.find?, ho]
          have hlen : (rest.filter (fun o => o.selected)).length = 1 := by
            rw [List.filter_cons] at h1
            simpa [ho] using h1
          have hmem : selValue rest ∈ rest.map (fun o => o.value) := by
            have hpos : 0 < (rest.filter (fun o => o.selected)).length := by omega
            rcases List.exists_mem_of_length_pos hpos with ⟨x, hx⟩
            have hx' := List.mem_filter.mp hx
            have hfind : (rest.find? (fun o => o.selected)).isSome := by
              rw [List.find?_isSome]
              exact ⟨x, hx'.1, hx'.2⟩
            cases hf : rest.find? (fun o => o.selected) with
            | none => rw [hf] at hfind; simp at hfind
            | some y =>
                have hy : y ∈ rest := List.mem_of_find?_eq_some hf
                have : selValue rest = y.value := by simp [selValue, hf]
                rw [this]
                exact List.mem_map_of_mem _ hy
          have hne : (o.value == selValue rest) = false := by
            have hnin : o.value ∉ rest.map (fun o => o.value) := h2.1
            have : o.value ≠ selValue rest := fun he => hnin (he ▸ hmem)
            simpa using this
          rw [hsel]
          unfold setSelValue
          rw [hne]
          simp only [Bool.false_eq_true, if_false]
          have heo : (⟨o.value, false⟩ : SOption) = o := by
            cases o with
            | mk v s => simp at ho; rw [ho]
          rw [heo, ih hlen h2.2]

theorem contrib_posOk (e : Elem) (h : posOk e = true) : contrib e = [posContrib e] := by
  cases e <;> simp [contrib, posContrib, posOk] at h ⊢

theorem flatten_posContrib (g : List Elem) (h : g.all posOk = true) :
    (g.map contrib).flatten = g.map posContrib := by
  induction g with
  | nil => rfl
  | cons e rest ih =>
      simp only [List.all_cons, Bool.and_eq_true] at h
      simp only [List.map_cons, List.flatten_cons, contrib_posOk e h.1, ih h.2]
      rfl

theorem posOk_restore (e : Elem) (vs : List JSVal) (j : Nat)
    (hpos : posOk e = true) (hv : vs[j]? = some (posContrib e)) :
    applyValues e vs j = e := by
  cases e with
  | text n v => simp [applyValues, hv, posContrib, jsToString]
  | textarea n v => simp [applyValues, hv, posContrib, jsToString]
  | selectOne n opts =>
      simp only [posOk, Bool.and_eq_true, decide_eq_true_eq] at hpos
      simp only [applyValues, hv, posContrib, jsToString]
      rw [setSelValue_selValue opts hpos.1 hpos.2]
  | radio n v c => simp [posOk] at hpos
  | checkbox n v c => simp [posOk] at hpos
  | selectMany n opts => simp [posOk] at hpos
  | fileInput n v => simp [posOk] at hpos
  | password n v => simp [posOk] at hpos

theorem radio_flatten (g : List Elem) (h : g.all isRadioE = true) :
    (g.map contrib).flatten =
      (g.filter radioChecked).map (fun e => JSVal.str (radioVal e)) := by
  induction g with
  | nil => rfl
  | cons e rest ih =>
      simp only [List.all_cons, Bool.and_eq_true] at h
      cases e with
      | radio n v c =>
          cases c with
          | true =>
              simp only [List.map_cons, List.flatten_cons, contrib, if_true,
                List.filter_cons, radioChecked, ih h.2]
              rfl
          | false =>
              simp only [List.map_cons, List.flatten_cons, contrib,
                Bool.false_eq_true, if_false, List.filter_cons, radioChecked, ih h.2]
              rfl
      | text n v => simp [isRadioE] at h
      | checkbox n v c => simp [isRadioE] at h
      | textarea n v => simp [isRadioE] at h
      | selectOne n opts => simp [isRadioE] at h
      | selectMany n opts => simp [isRadioE] at h
      | fileInput n v => simp [isRadioE] at h
      | password n v => simp [isRadioE] at h

theorem goodGroup_restores (g : List Elem) (hg : goodGroup g = true) :
    RestoresFrom ((g.map contrib).flatten) 0 g := by
  unfold goodGroup at hg
  rw [Bool.or_eq_true, Bool.or_eq_true, Bool.or_eq_true] at hg
  rcases hg with ((hpos | hcb) | hrad) | hsel
  · -- all positional
    intro j e hj
    rw [flatten_posContrib g hpos]
    have hjv : (g.map posContrib)[j]? = some (posContrib e) := by
      rw [List.getElem?_map, hj]; rfl
    have hmem : e ∈ g := List.getElem?_mem hj
    have hp : posOk e = true := List.all_eq_true.mp hpos e hmem
    rw [Nat.zero_add]
    exact posOk_restore e _ j hp hjv
  · -- a single checkbox
    obtain ⟨n, v, c, rfl⟩ : ∃ n v c, g = [.checkbox n v c] := by
      cases g with
      | nil => simp at hcb
      | cons e rest =>
          cases rest with
          | nil =>
              cases e with
              | checkbox n v c => exact ⟨n, v, c, rfl⟩
              | text n v => simp at hcb
              | radio n v c => simp at hcb
              | textarea n v => simp at hcb
              | selectOne n opts => simp at hcb
              | selectMany n opts => simp at hcb
              | fileInput n v => simp at hcb
              | password n v => simp at hcb
          | cons f rest2 => simp at hcb
    intro j e hj
    cases j with
    | zero =>
        rw [List.getElem?_cons_zero] at hj
        injection hj with hj
        subst hj
        simp [contrib, applyValues, truthy]
    | succ j => simp at hj
  · -- a radio group
    rw [Bool.and_eq_true, Bool.and_eq_true] at hrad
    obtain ⟨⟨hall, hnd⟩, hlen⟩ := hrad
    rw [decide_eq_true_eq] at hnd hlen
    rw [radio_flatten g hall]
    cases hf : g.filter radioChecked with
    | nil =>
        intro j e hj
        have hmem : e ∈ g := List.getElem?_mem hj
        have hre : isRadioE e = true := List.all_eq_true.mp hall e hmem
        have hnc : ¬radioChecked e = true := List.filter_eq_nil_iff.mp hf e hmem
        cases e with
        | radio n v c =>
            simp only [radioChecked, Bool.not_eq_true] at hnc
            simp [applyValues, strictEqStr, hnc]
        | text n v => simp [isRadioE] at hre
        | checkbox n v c => simp [isRadioE] at hre
        | textarea n v => simp [isRadioE] at hre
        | selectOne n opts => simp [isRadioE] at hre
        | selectMany n opts => simp [isRadioE] at hre
        | fileInput n v => simp [isRadioE] at hre
        | password n v => simp [isRadioE] at hre
    | cons e0 rest0 =>
        have hrest0 : rest0 = [] := by
          rw [hf] at hlen
          simp only [List.length_cons] at hlen
          exact List.length_eq_zero.mp (by omega)
        subst hrest0
        have he0 : e0 ∈ g ∧ radioChecked e0 = true := by
          have hm : e0 ∈ g.filter radioChecked := by rw [hf]; simp
          exact List.mem_filter.mp hm
        intro j e hj
        have hmem : e ∈ g := List.getElem?_mem hj
        have hre : isRadioE e = true := List.all_eq_true.mp hall e hmem
        cases e with
        | radio n v c =>
            show Elem.radio n v
              (strictEqStr v ([JSVal.str (radioVal e0)] : List JSVal).head?) = .radio n v c
            simp only [List.head?, strictEqStr]
            cases hc : c with
            | true =>
                subst hc
                have hm : Elem.radio n v true ∈ g.filter radioChecked :=
                  List.mem_filter.mpr ⟨hmem, by simp [radioChecked]⟩
                rw [hf] at hm
                simp only [List.mem_singleton] at hm
                rw [← hm]
                simp [radioVal]
            | false =>
                subst hc
                have hne : v ≠ radioVal e0 := by
                  intro he
                  have heq : Elem.radio n v false = e0 :=
                    List.inj_on_of_nodup_map hnd hmem he0.1 (by simp [radioVal, he])
                  have h2 := he0.2
                  rw [← heq] at h2
                  simp [radioChecked] at h2
                have hbe : (v == radioVal e0) = false := by simpa using hne
                rw [hbe]
        | text n v => simp [isRadioE] at hre
        | checkbox n v c => simp [isRadioE] at hre
        | textarea n v => simp [isRadioE] at hre
        | selectOne n opts => simp [isRadioE] at hre
        | selectMany n opts => simp [isRadioE] at hre
        | fileInput n v => simp [isRadioE] at hre
        | password n v => simp [isRadioE] at hre
  · -- a single multiple select with distinct option values
    obtain ⟨n, opts, hnd, rfl⟩ :
        ∃ n opts, (opts.map (fun o => o.value)).Nodup ∧ g = [.selectMany n opts] := by
      cases g with
      | nil => simp at hsel
      | cons e rest =>
          cases rest with
          | nil =>
              cases e with
              | selectMany n opts =>
                  rw [decide_eq_true_eq] at hsel
                  exact ⟨n, opts, hsel, rfl⟩
              | text n v => simp at hsel
              | radio n v c => simp at hsel
              | checkbox n v c => simp at hsel
              | textarea n v => simp at hsel
              | selectOne n opts => simp at hsel
              | fileInput n v => simp at hsel
              | password n v => simp at hsel
          | cons f rest2 => simp at hsel
    intro j e hj
    cases j with
    | zero =>
        rw [List.getElem?_cons_zero] at hj
        injection hj with hj
        subst hj
        show Elem.selectMany n (opts.map (fun o =>
          ⟨o.value, includesStr (([(Elem.selectMany n opts)].map contrib).flatten) o.value⟩))
            = .selectMany n opts
        have hvs : (([(Elem.selectMany n opts)].map contrib).flatten) =
            (opts.filter (fun o => o.selected)).map (fun o => JSVal.str o.value) := by
          simp [contrib]
        rw [hvs]
        congr 1
        apply map_eq_self
        intro o ho
        have hio : includesStr
            ((opts.filter (fun o => o.selected)).map (fun o => JSVal.str o.value))
            o.value = o.selected := by
          unfold includesStr
          cases hos : o.selected with
          | true =>
              have hm : JSVal.str o.value ∈
                  (opts.filter (fun o => o.selected)).map (fun o => JSVal.str o.value) :=
                List.mem_map_of_mem _ (List.mem_filter.mpr ⟨ho, hos⟩)
              exact List.elem_iff.mpr hm
          | false =>
              cases hc : List.contains
                  ((opts.filter (fun o => o.selected)).map (fun o => JSVal.str o.value))
                  (JSVal.str o.value) with
              | false => rfl
              | true =>
                  exfalso
                  have hmem := List.elem_iff.mp hc
                  rcases List.mem_map.mp hmem with ⟨o', ho', he⟩
                  have hof := List.mem_filter.mp ho'
                  injection he with he
                  have heq : o' = o :=
                    List.inj_on_of_nodup_map hnd hof.1 ho he
                  rw [heq] at hof
                  rw [hof.2] at hos
                  simp at hos
        rw [hio]
    | succ j => simp at hj

theorem filter_map_comm {α β : Type} (l : List α) (f : α → β) (p : α → Bool)
    (q : β → Bool) :
    ((l.filter p).map f).filter q = (l.filter (fun x => p x && q (f x))).map f := by
  induction l with
  | nil => rfl
  | cons x rest ih =>
      cases hp : p x with
      | true =>
          cases hq : q (f x) with
          | true => simp [List.filter_cons, hp, hq, ih]
          | false => simp [List.filter_cons, hp, hq, ih]
      | false => simp [List.filter_cons, hp, ih]

theorem filter_nameMatch_none (l : List Elem) : l.filter (nameMatch none) = l := by
  induction l with
  | nil => rfl
  | cons x rest ih => simp [List.filter_cons, nameMatch, ih]

theorem applyNameDoc_eq_self (doc : Doc) (sk : Bool) (n : String) (vs : List JSVal)
    (h : RestoresFrom vs 0 ((getFormElements doc sk none).filter (fun e => e.name == n))) :
    applyNameDoc doc sk n vs = doc := by
  unfold getFormElements at h
  unfold applyNameDoc
  cases hcond : (!sk && !(doc.form.id == "")) with
  | false =>
      simp only [hcond, Bool.false_eq_true, if_false]
      rw [hcond] at h
      simp only [Bool.false_eq_true, if_false] at h
      rw [filter_nameMatch_none] at h
      rw [applyName_eq_self _ _ _ _ h]
  | true =>
      simp only [hcond, if_true]
      rw [hcond] at h
      simp only [if_true] at h
      rw [filter_nameMatch_none] at h
      have hnm : (fun x : ExtCtl => nameMatch none x.elem && x.formAttr == doc.form.id) =
          (fun x : ExtCtl => x.formAttr == doc.form.id) := by
        funext x
        simp [nameMatch]
      rw [hnm] at h
      rw [List.filter_append] at h
      rw [restoresFrom_append] at h
      obtain ⟨hint, hext⟩ := h
      have hcomm : ((doc.external.filter (fun x => x.formAttr == doc.form.id)).map
            (fun x => x.elem)).filter (fun e => e.name == n) =
          (doc.external.filter
            (fun x => x.elem.name == n && x.formAttr == doc.form.id)).map
            (fun x => x.elem) := by
        rw [filter_map_comm]
        congr 1
        apply List.filter_congr
        intro x _
        rw [Bool.and_comm]
      rw [hcomm] at hext
      rw [applyName_eq_self _ _ _ _ hint]
      have hext2 : RestoresFrom vs (countName doc.form.elements n)
          ((doc.external.filter
            (fun x => x.elem.name == n && x.formAttr == doc.form.id)).map
            (fun x => x.elem)) := by
        have : (0 : Nat) + (List.filter (fun e => e.name == n) doc.form.elements).length =
            countName doc.form.elements n := by
          rw [Nat.zero_add]; rfl
        rw [this] at hext
        exact hext
      rw [applyNameExt_eq_self _ _ _ _ _ hext2]

theorem foldl_applyNameDoc_id (data : Record) (doc : Doc) (sk : Bool)
    (h : ∀ p ∈ data, applyNameDoc doc sk p.1 p.2 = doc) :
    deserializeDoc doc data sk = doc := by
  unfold deserializeDoc
  induction data with
  | nil => rfl
  | cons p rest ih =>
      simp only [List.foldl_cons]
      rw [h p (by simp)]
      exact ih (fun q hq => h q (by simp [hq]))

theorem roundtrip_of_goodDoc (doc : Doc) (sk : Bool) (hg : goodDoc doc sk = true) :
    deserializeDoc doc (serializeDoc doc sk) sk = doc := by
  unfold goodDoc goodResolved at hg
  rw [Bool.and_eq_true] at hg
  obtain ⟨hfp, hgrp⟩ := hg
  apply foldl_applyNameDoc_id
  intro p hp
  have hlk : rlookup (serializeElems (getFormElements doc sk none)) p.1 = some p.2 :=
    rlookup_of_mem _ p hp (rkeysNodup_serializeElems _)
  rw [rlookup_serializeElems] at hlk
  cases hany : ((getFormElements doc sk none).any
      fun e => !e.isFilePw && e.name == p.1) with
  | false => rw [hany] at hlk; simp at hlk
  | true =>
      rw [hany, if_pos rfl] at hlk
      injection hlk with hlk
      have hfil : (getFormElements doc sk none).filter
          (fun e => !e.isFilePw && e.name == p.1) =
          (getFormElements doc sk none).filter (fun e => e.name == p.1) := by
        apply List.filter_congr
        intro e he
        have hae := List.all_eq_true.mp hfp e he
        rw [Bool.and_eq_true] at hae
        rw [hae.1]
        simp
      rw [hfil] at hlk
      have hn : p.1 ∈ (getFormElements doc sk none).map Elem.name := by
        rcases List.any_eq_true.mp hany with ⟨e, he, hcondx⟩
        rw [Bool.and_eq_true] at hcondx
        have hname : e.name = p.1 := by simpa using hcondx.2
        exact hname ▸ List.mem_map_of_mem _ he
      have hgg : goodGroup ((getFormElements doc sk none).filter
          (fun e => e.name == p.1)) = true :=
        List.all_eq_true.mp hgrp _ hn
      have hres := goodGroup_restores _ hgg
      rw [hlk] at hres
      exact applyNameDoc_eq_self doc sk p.1 p.2 hres

theorem filter_map_pair (vs : List JSVal) (k n : String) :
    ((vs.map (fun v => (k, v))).filter (fun p => p.1 == n)) =
      if k == n then vs.map (fun v => (k, v)) else [] := by
  induction vs with
  | nil => simp
  | cons v rest ih =>
      cases hk : (k == n) with
      | true => simp only [List.map_cons, List.filter_cons, hk, if_true, ih]
      | false => simp only [List.map_cons, List.filter_cons, hk, Bool.false_eq_true,
          if_false, ih]

theorem handlerTrace_count_zero (data : Record) (fnNames : List String)
    (h : String → JSVal → Doc → Doc) (doc : Doc) (n : String)
    (hcnt : fnNames.count n = 0) :
    ((handlerPhase data fnNames h doc).2.2).filter (fun p => p.1 == n) = [] := by
  induction fnNames generalizing doc with
  | nil => simp [handlerPhase]
  | cons fnName rest ih =>
      have hne : (fnName == n) = false := by
        cases he : (fnName == n) with
        | false => rfl
        | true =>
            have : fnName = n := by simpa using he
            subst this
            rw [List.count_cons_self] at hcnt
            omega
      have hrest : rest.count n = 0 := by
        rw [List.count_cons] at hcnt
        omega
      unfold handlerPhase
      cases hl : rlookup data fnName with
      | none => exact ih doc hrest
      | some vs =>
          simp only [List.filter_append, filter_map_pair, hne, Bool.false_eq_true,
            if_false, List.nil_append]
          exact ih _ hrest

theorem handlerTrace_once (data : Record) (fnNames : List String)
    (h : String → JSVal → Doc → Doc) (doc : Doc) (n : String) (vs : List JSVal)
    (hcnt : fnNames.count n = 1) (hvs : rlookup data n = some vs) :
    ((handlerPhase data fnNames h doc).2.2).filter (fun p => p.1 == n) =
      vs.map (fun v => (n, v)) := by
  induction fnNames generalizing doc with
  | nil => simp at hcnt
  | cons fnName rest ih =>
      by_cases he : fnName = n
      · subst he
        have hrest : rest.count fnName = 0 := by
          rw [List.count_cons_self] at hcnt
          omega
        unfold handlerPhase
        rw [hvs]
        simp only [List.filter_append, filter_map_pair, beq_self_eq_true, if_true]
        rw [handlerTrace_count_zero _ _ _ _ _ hrest, List.append_nil]
      · have hne : (fnName == n) = false := by simpa using he
        have hrest : rest.count n = 1 := by
          rw [List.count_cons] at hcnt
          simp only [beq_iff_eq] at hcnt
          rw [if_neg he] at hcnt
          omega
        unfold handlerPhase
        cases hl : rlookup data fnName with
        | none => exact ih doc hrest
        | some vs' =>
            simp only [List.filter_append, filter_map_pair, hne, Bool.false_eq_true,
              if_false, List.nil_append]
            exact ih _ hrest

theorem handled_contains (data : Record) (fnNames : List String)
    (h : String → JSVal → Doc → Doc) (doc : Doc) (n : String) (vs : List JSVal)
    (hmem : n ∈ fnNames) (hvs : rlookup data n = some vs) :
    ((handlerPhase data fnNames h doc).2.1).contains n = true := by
  induction fnNames generalizing doc with
  | nil => simp at hmem
  | cons fnName rest ih =>
      unfold handlerPhase
      by_cases he : fnName = n
      · subst he
        rw [hvs]
        simp
      · have hmem' : n ∈ rest := by
          rcases List.mem_cons.mp hmem with hx | hx
          · exact absurd hx.symm he
          · exact hx
        cases hl : rlookup data fnName with
        | none => exact ih doc hmem'
        | some vs' =>
            have := ih (vs'.foldl (fun d v => h fnName v d) doc) hmem'
            simp only [List.contains_cons]
            rw [this]
            simp

theorem applyNameDoc_preserves_form (d : Doc) (sk : Bool) (m : String) (vs : List JSVal)
    (j : Nat) (e : Elem) (hj : d.form.elements[j]? = some e)
    (hne : (e.name == m) = false) :
    (applyNameDoc d sk m vs).form.elements[j]? = some e := by
  unfold applyNameDoc
  cases hcond : (!sk && !(d.form.id == "")) with
  | true =>
      simp only [hcond, if_true]
      exact applyName_getElem_ne _ _ _ _ _ _ hj hne
  | false =>
      simp only [hcond, Bool.false_eq_true, if_false]
      exact applyName_getElem_ne _ _ _ _ _ _ hj hne

theorem applyNameDoc_preserves_ext (d : Doc) (sk : Bool) (m : String) (vs : List JSVal)
    (j : Nat) (x : ExtCtl) (hj : d.external[j]? = some x)
    (hne : (x.elem.name == m) = false) :
    (applyNameDoc d sk m vs).external[j]? = some x := by
  unfold applyNameDoc
  cases hcond : (!sk && !(d.form.id == "")) with
  | true =>
      simp only [hcond, if_true]
      exact applyNameExt_getElem_ne _ _ _ _ _ _ _ hj hne
  | false =>
      simp only [hcond, Bool.false_eq_true, if_false]
      exact hj

theorem defaultFold_preserves_form (data : Record) (handled : List String) (sk : Bool)
    (n : String) (hhand : handled.contains n = true) (d0 : Doc)
    (j : Nat) (e : Elem) (hj : d0.form.elements[j]? = some e) (hen : e.name = n) :
    ((data.foldl
      (fun d p => if handled.contains p.1 then d else applyNameDoc d sk p.1 p.2)
      d0).form.elements)[j]? = some e := by
  induction data generalizing d0 with
  | nil => exact hj
  | cons p rest ih =>
      simp only [List.foldl_cons]
      cases hc : handled.contains p.1 with
      | true => rw [if_pos rfl]; exact ih d0 hj
      | false =>
          rw [if_neg (by simp)]
          have hne : (e.name == p.1) = false := by
            cases hb : (e.name == p.1) with
            | false => rfl
            | true =>
                have : e.name = p.1 := by simpa using hb
                rw [hen] at this
                rw [this] at hhand
                rw [hhand] at hc
                cases hc
          exact ih _ (applyNameDoc_preserves_form _ _ _ _ _ _ hj hne)

theorem defaultFold_preserves_ext (data : Record) (handled : List String) (sk : Bool)
    (n : String) (hhand : handled.contains n = true) (d0 : Doc)
    (j : Nat) (x : ExtCtl) (hj : d0.external[j]? = some x) (hen : x.elem.name = n) :
    ((data.foldl
      (fun d p => if handled.contains p.1 then d else applyNameDoc d sk p.1 p.2)
      d0).external)[j]? = some x := by
  induction data generalizing d0 with
  | nil => exact hj
  | cons p rest ih =>
      simp only [List.foldl_cons]
      cases hc : handled.contains p.1 with
      | true => rw [if_pos rfl]; exact ih d0 hj
      | false =>
          rw [if_neg (by simp)]
          have hne : (x.elem.name == p.1) = false := by
            cases hb : (x.elem.name == p.1) with
            | false => rfl
            | true =>
                have : x.elem.name = p.1 := by simpa using hb
                rw [hen] at this
                rw [this] at hhand
                rw [hhand] at hc
                cases hc
          exact ih _ (applyNameDoc_preserves_ext _ _ _ _ _ _ hj hne)

theorem serializeFStep_eq (inc exc : List String) (data : Record) (e : Elem) :
    serializeFStep inc exc data e =
      if e.isFilePw || isNameFiltered e.name inc exc then data
      else (contrib e).foldl (fun d x => rpush d e.name x) data := by
  cases e with
  | text n v =>
      simp only [serializeFStep, Elem.isFilePw, Elem.name, contrib, Bool.false_or]
      cases isNameFiltered n inc exc <;> simp
  | radio n v c =>
      simp only [serializeFStep, Elem.isFilePw, Elem.name, contrib, Bool.false_or]
      cases isNameFiltered n inc exc with
      | true => simp
      | false => cases c <;> simp
  | checkbox n v c =>
      simp only [serializeFStep, Elem.isFilePw, Elem.name, contrib, Bool.false_or]
      cases isNameFiltered n inc exc <;> simp
  | textarea n v =>
      simp only [serializeFStep, Elem.isFilePw, Elem.name, contrib, Bool.false_or]
      cases isNameFiltered n inc exc <;> simp
  | selectOne n opts =>
      simp only [serializeFStep, Elem.isFilePw, Elem.name, contrib, Bool.false_or]
      cases isNameFiltered n inc exc <;> simp
  | selectMany n opts =>
      simp only [serializeFStep, Elem.isFilePw, Elem.name, contrib, Bool.false_or]
      cases isNameFiltered n inc exc with
      | true => simp
      | false => simp [selectMany_fold]
  | fileInput n v => simp [serializeFStep, Elem.isFilePw]
  | password n v => simp [serializeFStep, Elem.isFilePw]

theorem hasKey_serializeF_fold (es : List Elem) (inc exc : List String) (r : Record)
    (n : String) (hflt : isNameFiltered n inc exc = true) (hr : hasKey r n = false) :
    hasKey (es.foldl (serializeFStep inc exc) r) n = false := by
  induction es generalizing r with
  | nil => exact hr
  | cons e rest ih =>
      simp only [List.foldl_cons]
      apply ih
      rw [serializeFStep_eq]
      cases hskip : (e.isFilePw || isNameFiltered e.name inc exc) with
      | true => rw [if_pos rfl]; exact hr
      | false =>
          rw [if_neg (by simp)]
          have hne : (e.name == n) = false := by
            cases hb : (e.name == n) with
            | false => rfl
            | true =>
                have heq : e.name = n := by simpa using hb
                rw [heq] at hskip
                rw [hflt] at hskip
                simp at hskip
          rw [hasKey_pushFold _ _ _ _ hne]
          exact hr

theorem hasKey_serializeF (es : List Elem) (inc exc : List String) (n : String)
    (hflt : isNameFiltered n inc exc = true) :
    hasKey (serializeF es inc exc) n = false := by
  unfold serializeF
  exact hasKey_serializeF_fold es inc exc [] n hflt (by simp [hasKey])

theorem handlerTraceF_filtered (data : Record) (inc exc : List String)
    (fnNames : List String) (h : String → JSVal → List Elem → List Elem)
    (es : List Elem) (n : String) (hflt : isNameFiltered n inc exc = true) :
    ((handlerPhaseF data inc exc fnNames h es).2.2).filter (fun p => p.1 == n) = [] := by
  induction fnNames generalizing es with
  | nil => simp [handlerPhaseF]
  | cons fnName rest ih =>
      unfold handlerPhaseF
      cases hl : rlookup data fnName with
      | none => exact ih es
      | some vs =>
          dsimp only
          cases hfn : isNameFiltered fnName inc exc with
          | true =>
              rw [if_pos rfl]
              exact ih es
          | false =>
              rw [if_neg (by simp)]
              have hne : (fnName == n) = false := by
                cases hb : (fnName == n) with
                | false => rfl
                | true =>
                    have heq : fnName = n := by simpa using hb
                    rw [heq, hflt] at hfn
                    cases hfn
              simp only [List.filter_append, filter_map_pair, hne, Bool.false_eq_true,
                if_false, List.nil_append]
              exact ih _

theorem deserializeF_fold_preserves (data : Record) (inc exc handled : List String)
    (n : String) (hflt : isNameFiltered n inc exc = true) (es0 : List Elem)
    (j : Nat) (e : Elem) (hj : es0[j]? = some e) (hen : e.name = n) :
    (data.foldl
      (fun l p =>
        if isNameFiltered p.1 inc exc then l
        else if handled.contains p.1 then l
        else applyName l p.1 p.2 0)
      es0)[j]? = some e := by
  induction data generalizing es0 with
  | nil => exact hj
  | cons p rest ih =>
      simp only [List.foldl_cons]
      cases hpf : isNameFiltered p.1 inc exc with
      | true => rw [if_pos rfl]; exact ih es0 hj
      | false =>
          rw [if_neg (by simp)]
          cases hph : handled.contains p.1 with
          | true => rw [if_pos rfl]; exact ih es0 hj
          | false =>
              rw [if_neg (by simp)]
              have hne : (e.name == p.1) = false := by
                cases hb : (e.name == p.1) with
                | false => rfl
                | true =>
                    have heq : e.name = p.1 := by simpa using hb
                    rw [hen] at heq
                    rw [← heq, hflt] at hpf
                    cases hpf
              exact ih _ (applyName_getElem_ne _ _ _ _ _ _ hj hne)

/-! ## Claim theorems -/

/-- C2: for every form with neither a truthy uuid option nor a non-empty
element id, each storage-touching operation (save, load, clearStorage,
persist) raises the configuration error synchronously — modelled as the
`.error` result — and the storage component of the result is exactly the
input storage: no read or write of the backend has occurred. -/
theorem fp_C2 (doc : Doc) (uuid : Option String) (sk us : Bool)
    (fnNames : List String) (h : String → JSVal → Doc → Doc) (st : Storage)
    (hu : uuidFalsy uuid = true) (hid : doc.form.id = "") :
    save doc uuid sk us st =
        (.error "form persistence requires a form id or uuid", st) ∧
      load doc uuid sk us fnNames h st =
        (.error "form persistence requires a form id or uuid", st) ∧
      clearStorage doc uuid us st =
        (.error "form persistence requires a form id or uuid", st) ∧
      persist doc uuid sk us fnNames h st =
        (.error "form persistence requires a form id or uuid", st) := by
  have hkey : getStorageKey doc.form.id uuid =
      .error "form persistence requires a form id or uuid" := by
    unfold getStorageKey
    rw [hu, hid]
    simp
  refine ⟨?_, ?_, ?_, ?_⟩ <;> simp [save, load, clearStorage, persist, hkey]

/-- C2 witness: a form with empty id and no uuid, on a concrete storage. -/
theorem fp_C2_witness :
    uuidFalsy none = true ∧ (Doc.mk ⟨"", [.text "a" "x"]⟩ []).form.id = "" ∧
      save ⟨⟨"", [.text "a" "x"]⟩, []⟩ none false false [("k", [])] =
        (.error "form persistence requires a form id or uuid", [("k", [])]) :=
  ⟨by decide, rfl,
    (fp_C2 ⟨⟨"", [.text "a" "x"]⟩, []⟩ none false false [] (fun _ _ d => d)
      [("k", [])] (by decide) rfl).1⟩

/-- C10: when a non-empty uuid option is given, the storage key is
`form#` + uuid regardless of the form id: save writes at that key, clear
removes at that key, and load reads at that key (a missing item at that
key makes load a no-op).  The form id is used only when no uuid is given. -/
theorem fp_C10 (doc : Doc) (u : String) (sk us : Bool) (fnNames : List String)
    (h : String → JSVal → Doc → Doc) (st : Storage) (hu : u ≠ "") :
    getStorageKey doc.form.id (some u) = .ok ("form#" ++ u) ∧
      save doc (some u) sk us st =
        (.ok ("form#" ++ u), setItem st ("form#" ++ u) (serializeDoc doc sk)) ∧
      clearStorage doc (some u) us st = (.ok (), removeItem st ("form#" ++ u)) ∧
      (getItem st ("form#" ++ u) = none →
        load doc (some u) sk us fnNames h st = (.ok doc, st)) := by
  have hbe : (u == "") = false := by simpa using hu
  have hkey : getStorageKey doc.form.id (some u) = .ok ("form#" ++ u) := by
    unfold getStorageKey uuidFalsy
    dsimp only
    rw [hbe]
    simp
  refine ⟨hkey, ?_, ?_, ?_⟩
  · simp [save, hkey]
  · simp [clearStorage, hkey]
  · intro hnone
    simp [load, hkey, hnone]

/-- C10 witness: a form whose id is `fid` saved under uuid `u`. -/
theorem fp_C10_witness :
    ("u" : String) ≠ "" ∧
      save ⟨⟨"fid", [.checkbox "test" "on" true]⟩, []⟩ (some "u") false false [] =
        (.ok "form#u", [("form#u", [("test", [.bool true])])]) := by
  refine ⟨by decide, ?_⟩
  have h := (fp_C10 ⟨⟨"fid", [.checkbox "test" "on" true]⟩, []⟩ "u" false false []
    (fun _ _ d => d) [] (by decide)).2.1
  rw [h]
  rfl

/-- C3: a name borne only by file and password controls never appears as a
key of the serialized record, whatever the values of those controls. -/
theorem fp_C3 (doc : Doc) (sk : Bool) (n : String)
    (hyp : ∀ e ∈ getFormElements doc sk none, e.name = n → e.isFilePw = true) :
    hasKey (serializeDoc doc sk) n = false := by
  unfold serializeDoc
  rw [hasKey_serializeElems]
  rw [← Bool.not_eq_true, List.any_eq_true]
  rintro ⟨e, he, hcond⟩
  rw [Bool.and_eq_true] at hcond
  have hn : e.name = n := by simpa using hcond.2
  have hf := hyp e he hn
  rw [hf] at hcond
  simp at hcond

/-- C3 witness: a form holding one file input and one password input named
`test`, with a value in the password; the record has no key `test`. -/
theorem fp_C3_witness :
    hasKey (serializeDoc ⟨⟨"", [.fileInput "test" "", .password "test" "secret"]⟩, []⟩
      false) "test" = false :=
  fp_C3 ⟨⟨"", [.fileInput "test" "", .password "test" "secret"]⟩, []⟩ false "test"
    (by decide)

/-- C4 counterexample: the cited serialize pre-creates the key's list
before checking whether the control contributes, so an all-unchecked radio
group named `r` yields the key `r` with an empty list, and a control with
an empty name yields the key of the empty string — both contradicting the
claimed record-name invariant. -/
theorem fp_C4_counterexample :
    serializeDoc ⟨⟨"", [.radio "r" "a" false]⟩, []⟩ false = [("r", [])] ∧
      serializeDoc ⟨⟨"", [.text "" "x"]⟩, []⟩ false = [("", [.str "x"])] := by
  decide

/-- C4 amended: a name appears as a key of the record exactly when some
resolved non-file, non-password control bears that name; the name may be
empty and the key's list may be empty (an all-unchecked radio group
creates its key with no contribution). -/
theorem fp_C4 (doc : Doc) (sk : Bool) (n : String) :
    hasKey (serializeDoc doc sk) n = true ↔
      ∃ e ∈ getFormElements doc sk none, e.isFilePw = false ∧ e.name = n := by
  unfold serializeDoc
  rw [hasKey_serializeElems, List.any_eq_true]
  constructor
  · rintro ⟨e, he, hc⟩
    rw [Bool.and_eq_true] at hc
    exact ⟨e, he, by simpa using hc.1, by simpa using hc.2⟩
  · rintro ⟨e, he, h1, h2⟩
    refine ⟨e, he, ?_⟩
    rw [Bool.and_eq_true]
    exact ⟨by simp [h1], by simp [h2]⟩

/-- C1 counterexample: two checkboxes sharing the name `t`, the first
unchecked and the second checked.  Serialize yields `t : [false, true]`,
but deserialize writes `values[0]` into every same-named checkbox, so both
end up unchecked: the round trip does not restore the form even though all
controls are of supported kinds. -/
theorem fp_C1_counterexample :
    deserializeDoc ⟨⟨"", [.checkbox "t" "v" false, .checkbox "t" "w" true]⟩, []⟩
        (serializeDoc ⟨⟨"", [.checkbox "t" "v" false, .checkbox "t" "w" true]⟩, []⟩
          false)
        false ≠
      ⟨⟨"", [.checkbox "t" "v" false, .checkbox "t" "w" true]⟩, []⟩ := by
  decide

/-- C1 amended: deserializing the result of serializing a form restores
every control when the form's same-named control groups are well-behaved:
every resolved control is of a supported kind (no file, no password) with
a non-empty name, and each name group is either all value-positional
controls (text-like inputs, textareas, and single selects that have
exactly one selected option and distinct option values), a single
checkbox, a radio group with pairwise-distinct values and at most one
checked, or a single multiple select with distinct option values. -/
theorem fp_C1 (doc : Doc) (sk : Bool) (hg : goodDoc doc sk = true) :
    deserializeDoc doc (serializeDoc doc sk) sk = doc :=
  roundtrip_of_goodDoc doc sk hg

/-- C1 witness: one control of every supported kind, including an
externally associated text input, round-trips. -/
theorem fp_C1_witness :
    goodDoc ⟨⟨"fid", [.text "a" "x", .checkbox "c" "on" true,
        .radio "r" "1" true, .radio "r" "2" false,
        .selectOne "s" [⟨"p", true⟩, ⟨"q", false⟩],
        .selectMany "m" [⟨"u", true⟩, ⟨"w", false⟩],
        .textarea "ta" "hello"]⟩, [⟨.text "a" "y", "fid"⟩]⟩ false = true ∧
      deserializeDoc ⟨⟨"fid", [.text "a" "x", .checkbox "c" "on" true,
          .radio "r" "1" true, .radio "r" "2" false,
          .selectOne "s" [⟨"p", true⟩, ⟨"q", false⟩],
          .selectMany "m" [⟨"u", true⟩, ⟨"w", false⟩],
          .textarea "ta" "hello"]⟩, [⟨.text "a" "y", "fid"⟩]⟩
        (serializeDoc ⟨⟨"fid", [.text "a" "x", .checkbox "c" "on" true,
          .radio "r" "1" true, .radio "r" "2" false,
          .selectOne "s" [⟨"p", true⟩, ⟨"q", false⟩],
          .selectMany "m" [⟨"u", true⟩, ⟨"w", false⟩],
          .textarea "ta" "hello"]⟩, [⟨.text "a" "y", "fid"⟩]⟩ false)
        false =
      ⟨⟨"fid", [.text "a" "x", .checkbox "c" "on" true,
          .radio "r" "1" true, .radio "r" "2" false,
          .selectOne "s" [⟨"p", true⟩, ⟨"q", false⟩],
          .selectMany "m" [⟨"u", true⟩, ⟨"w", false⟩],
          .textarea "ta" "hello"]⟩, [⟨.text "a" "y", "fid"⟩]⟩ :=
  ⟨by decide, fp_C1 _ false (by decide)⟩

/-- C5: a form with a single checkbox named `test`.  Serializing after
checking yields `test : [true]`; deserializing `test : [true]` into the
unchecked form checks it; deserializing the empty record, or any record
without the key `test`, leaves it unchecked. -/
theorem fp_C5 :
    serializeDoc ⟨⟨"", [.checkbox "test" "on" true]⟩, []⟩ false =
        [("test", [.bool true])] ∧
      deserializeDoc ⟨⟨"", [.checkbox "test" "on" false]⟩, []⟩
          [("test", [.bool true])] false =
        ⟨⟨"", [.checkbox "test" "on" true]⟩, []⟩ ∧
      deserializeDoc ⟨⟨"", [.checkbox "test" "on" false]⟩, []⟩ [] false =
        ⟨⟨"", [.checkbox "test" "on" false]⟩, []⟩ ∧
      ∀ data : Record, hasKey data "test" = false →
        deserializeDoc ⟨⟨"", [.checkbox "test" "on" false]⟩, []⟩ data false =
          ⟨⟨"", [.checkbox "test" "on" false]⟩, []⟩ := by
  refine ⟨by decide, by decide, by decide, ?_⟩
  intro data hk
  apply foldl_applyNameDoc_id
  intro p hp
  have hne : ("test" == p.1) = false := by
    cases hb : ("test" == p.1) with
    | false => rfl
    | true =>
        have hq : "test" = p.1 := by simpa using hb
        have : hasKey data "test" = true := by
          rw [hasKey, List.any_eq_true]
          exact ⟨p, hp, by simp [hq]⟩
        rw [this] at hk
        cases hk
  apply applyNameDoc_eq_self
  have hfil : (getFormElements ⟨⟨"", [.checkbox "test" "on" false]⟩, []⟩ false
      none).filter (fun e => e.name == p.1) = [] := by
    simp [getFormElements, nameMatch, List.filter_cons, Elem.name, hne]
  rw [hfil]
  intro j e hj
  simp at hj

/-- C5 witness: deserializing a record holding only an unrelated key
leaves the checkbox unchecked. -/
theorem fp_C5_witness :
    deserializeDoc ⟨⟨"", [.checkbox "test" "on" false]⟩, []⟩
        [("other", [.str "x"])] false =
      ⟨⟨"", [.checkbox "test" "on" false]⟩, []⟩ :=
  fp_C5.2.2.2 [("other", [.str "x"])] (by decide)

/-- C6: two radios named `test` with values `a` (checked) and `b`.
Serialize yields `test : ['a']`; deserializing `test : ['b']` checks the
second and unchecks the first; in general each radio of the group ends
checked exactly when its value equals the record's first entry. -/
theorem fp_C6 :
    serializeDoc ⟨⟨"", [.radio "test" "a" true, .radio "test" "b" false]⟩, []⟩
        false = [("test", [.str "a"])] ∧
      deserializeDoc ⟨⟨"", [.radio "test" "a" true, .radio "test" "b" false]⟩, []⟩
          [("test", [.str "b"])] false =
        ⟨⟨"", [.radio "test" "a" false, .radio "test" "b" true]⟩, []⟩ ∧
      ∀ (c1 c2 : Bool) (w : String),
        deserializeDoc ⟨⟨"", [.radio "test" "a" c1, .radio "test" "b" c2]⟩, []⟩
            [("test", [.str w])] false =
          ⟨⟨"", [.radio "test" "a" ("a" == w), .radio "test" "b" ("b" == w)]⟩,
            []⟩ := by
  refine ⟨by decide, by decide, ?_⟩
  intro c1 c2 w
  rfl

/-- C7: for a name that has a handler (appearing once in the handler
table) and an entry in the record, deserialize invokes the handler exactly
once per value of that entry, in list order (the invocation trace filtered
to that name is the entry's value list), the handler phase runs before
default restoration, and the default positional-write phase never touches
a control bearing the handled name: nested and external controls named `n`
leave the default phase exactly as the handler phase left them, whatever
the handler function does. -/
theorem fp_C7 (doc : Doc) (data : Record) (fnNames : List String)
    (h : String → JSVal → Doc → Doc) (sk : Bool) (n : String) (vs : List JSVal)
    (hcnt : fnNames.count n = 1) (hvs : rlookup data n = some vs) :
    ((deserializeDocH doc data fnNames h sk).2.filter (fun p => p.1 == n) =
        vs.map (fun v => (n, v))) ∧
      (∀ (j : Nat) (e : Elem),
        (handlerPhase data fnNames h doc).1.form.elements[j]? = some e →
        e.name = n →
        (deserializeDocH doc data fnNames h sk).1.form.elements[j]? = some e) ∧
      (∀ (j : Nat) (x : ExtCtl),
        (handlerPhase data fnNames h doc).1.external[j]? = some x →
        x.elem.name = n →
        (deserializeDocH doc data fnNames h sk).1.external[j]? = some x) := by
  have hmem : n ∈ fnNames := by
    have : 0 < fnNames.count n := by omega
    exact List.count_pos_iff_mem.mp this
  have hhand := handled_contains data fnNames h doc n vs hmem hvs
  refine ⟨?_, ?_, ?_⟩
  · unfold deserializeDocH
    dsimp only
    exact handlerTrace_once data fnNames h doc n vs hcnt hvs
  · intro j e hj hen
    unfold deserializeDocH
    dsimp only
    exact defaultFold_preserves_form data _ sk n hhand _ j e hj hen
  · intro j x hj hen
    unfold deserializeDocH
    dsimp only
    exact defaultFold_preserves_ext data _ sk n hhand _ j x hj hen

/-- C7 witness: a handler for `test` with two recorded values is traced
exactly twice, in order, and the control named `test` is untouched by the
default phase. -/
theorem fp_C7_witness :
    ((deserializeDocH ⟨⟨"", [.text "test" "x"]⟩, []⟩
        [("test", [.str "v1", .str "v2"])] ["test"] (fun _ _ d => d)
        false).2.filter (fun p => p.1 == "test") =
      [("test", .str "v1"), ("test", .str "v2")]) ∧
    (deserializeDocH ⟨⟨"", [.text "test" "x"]⟩, []⟩
        [("test", [.str "v1", .str "v2"])] ["test"] (fun _ _ d => d)
        false).1.form.elements[0]? = some (.text "test" "x") := by
  have h := fp_C7 ⟨⟨"", [.text "test" "x"]⟩, []⟩
    [("test", [.str "v1", .str "v2"])] ["test"] (fun _ _ d => d) false "test"
    [.str "v1", .str "v2"] (by decide) (by decide)
  exact ⟨h.1, h.2.1 0 (.text "test" "x") (by decide) rfl⟩

/-- C8: for a non-empty control name with allow list `inc` and deny list
`exc`, the name is filtered exactly when it is on the deny list, or the
allow list is non-empty and the name is not on it; a filtered name is a
complete no-op: it never appears as a key of the filter-aware serializer's
record, the filter-aware deserializer's handler phase never invokes a
handler for it (its invocation trace has no entry for the name), and its
default phase never writes a control bearing the name. -/
theorem fp_C8 (n : String) (inc exc : List String) (hn : n ≠ "") :
    (isNameFiltered n inc exc = true ↔
      (n ∈ exc ∨ (inc ≠ [] ∧ n ∉ inc))) ∧
    (isNameFiltered n inc exc = true →
      (∀ es : List Elem, hasKey (serializeF es inc exc) n = false) ∧
      (∀ (es : List Elem) (data : Record) (fnNames : List String)
          (h : String → JSVal → List Elem → List Elem),
        ((deserializeF es data inc exc fnNames h).2.filter
          (fun p => p.1 == n) = []) ∧
        (∀ (j : Nat) (e : Elem),
          (handlerPhaseF data inc exc fnNames h es).1[j]? = some e →
          e.name = n →
          (deserializeF es data inc exc fnNames h).1[j]? = some e))) := by
  have hbe : (n == "") = false := by simpa using hn
  constructor
  · unfold isNameFiltered
    constructor
    · intro hc
      rw [if_neg (by simp [hbe])] at hc
      by_cases h1 : n ∈ exc
      · exact Or.inl h1
      · have h1f : exc.contains n = false := by
          cases hcc : exc.contains n with
          | false => rfl
          | true => exact absurd (List.elem_iff.mp hcc) h1
        rw [if_neg (by simp [h1f, h1])] at hc
        by_cases h2 : inc = []
        · rw [h2] at hc
          simp at hc
        · refine Or.inr ⟨h2, ?_⟩
          intro hmemx
          have hcn : inc.contains n = true := List.elem_iff.mpr hmemx
          rw [hcn] at hc
          simp at hc
    · intro hd
      rw [if_neg (by simp [hbe])]
      rcases hd with h1 | ⟨h2, h3⟩
      · rw [if_pos (by simpa using List.elem_iff.mpr h1)]
      · by_cases hx : exc.contains n = true
        · rw [if_pos (by simpa using hx)]
        · rw [if_neg (by simpa using hx)]
          rw [if_pos ?_]
          have hlen : 0 < inc.length := List.length_pos.mpr h2
          have hcn : inc.contains n = false := by
            cases hcc : inc.contains n with
            | false => rfl
            | true => exact absurd (List.elem_iff.mp hcc) h3
          simp [hlen, hcn, h3]
  · intro hflt
    refine ⟨fun es => hasKey_serializeF es inc exc n hflt, ?_⟩
    intro es data fnNames h
    constructor
    · unfold deserializeF
      dsimp only
      exact handlerTraceF_filtered data inc exc fnNames h es n hflt
    · intro j e hj hen
      unfold deserializeF
      dsimp only
      exact deserializeF_fold_preserves data inc exc _ n hflt _ j e hj hen

/-- C8 witness: with deny list `['b']`, the name `b` is filtered, the
serialized record of a form holding `a` and `b` controls has no key `b`,
and deserializing a record with a `b` entry leaves the `b` control
untouched while the handler for `b` is never invoked. -/
theorem fp_C8_witness :
    (isNameFiltered "b" [] ["b"] = true ↔
      ("b" ∈ ["b"] ∨ (([] : List String) ≠ [] ∧ "b" ∉ ([] : List String)))) ∧
      hasKey (serializeF [.text "a" "1", .text "b" "2"] [] ["b"]) "b" = false ∧
      (deserializeF [.text "a" "1", .text "b" "2"]
          [("a", [.str "x"]), ("b", [.str "y"])] [] ["b"] ["b"]
          (fun _ _ l => l)).2.filter (fun p => p.1 == "b") = [] ∧
      (deserializeF [.text "a" "1", .text "b" "2"]
          [("a", [.str "x"]), ("b", [.str "y"])] [] ["b"] ["b"]
          (fun _ _ l => l)).1[1]? = some (.text "b" "2") := by
  have h := fp_C8 "b" [] ["b"] (by decide)
  have h2 := (h.2 (by decide)).2 [.text "a" "1", .text "b" "2"]
    [("a", [.str "x"]), ("b", [.str "y"])] ["b"] (fun _ _ l => l)
  refine ⟨h.1, (h.2 (by decide)).1 [.text "a" "1", .text "b" "2"], h2.1, ?_⟩
  exact h2.2 1 (.text "b" "2") (by decide) rfl

/-- C9: a form whose element id is empty resolves exactly its nested
controls in document order — the result is the same whatever controls
exist elsewhere in the document, so no document-wide external-association
query is consulted — and resolution is total; when the form does have an
id and external search is not skipped, the externally associated controls
are appended after the nested set. -/
theorem fp_C9 (f : Form) (ext1 ext2 : List ExtCtl) (sk : Bool) (nf : Option String)
    (g : Form) (ext : List ExtCtl) (hid : f.id = "") (hgid : g.id ≠ "") :
    getFormElements ⟨f, ext1⟩ sk nf = f.elements.filter (nameMatch nf) ∧
      getFormElements ⟨f, ext1⟩ sk nf = getFormElements ⟨f, ext2⟩ sk nf ∧
      getFormElements ⟨g, ext⟩ false nf =
        g.elements.filter (nameMatch nf) ++
          (ext.filter (fun x => nameMatch nf x.elem && x.formAttr == g.id)).map
            (fun x => x.elem) := by
  have h1 : ∀ ext' : List ExtCtl,
      getFormElements ⟨f, ext'⟩ sk nf = f.elements.filter (nameMatch nf) := by
    intro ext'
    unfold getFormElements
    simp [hid]
  have hg : (g.id == "") = false := by simpa using hgid
  refine ⟨h1 ext1, by rw [h1 ext1, h1 ext2], ?_⟩
  unfold getFormElements
  simp [hg]

/-- C9 witness: a form with no id ignores an externally associated
control; a form with an id appends it after the nested controls. -/
theorem fp_C9_witness :
    getFormElements ⟨⟨"", [.text "a" "x"]⟩, [⟨.text "b" "y", "fid"⟩]⟩ false none =
        [.text "a" "x"] ∧
      getFormElements ⟨⟨"fid", [.text "a" "x"]⟩, [⟨.text "b" "y", "fid"⟩]⟩ false
          none =
        [.text "a" "x", .text "b" "y"] := by
  have h := fp_C9 ⟨"", [.text "a" "x"]⟩ [⟨.text "b" "y", "fid"⟩] []
    false none ⟨"fid", [.text "a" "x"]⟩ [⟨.text "b" "y", "fid"⟩] rfl (by decide)
  refine ⟨?_, ?_⟩
  · rw [h.1]; decide
  · rw [h.2.2]; decide
